import Mathlib

/-!
Verification of the funkster-http combinator library (src/src/http.ts and
src/src/index.ts) against its natural-language specification.

Modelling conventions:
* JavaScript mutation of the shared request/response pair is rendered as
  explicit state passing: a pipe maps a context to the updated context
  together with an outcome.
* The asynchronous result channel of a pipe (a promise that resolves with
  the context on a match, resolves with a falsy value on a non-match, or
  rejects) is the `Outcome` sum type.
* External collaborators (funkster-core's composition algebra, pathToRegexp,
  parseurl, querystring, raw-body, Node's ServerResponse primitives) are
  modelled from the specification text; everything else is translated
  directly from the TypeScript source.
-/

namespace Funkster

/-- Outcome of running a pipe on a context: the promise resolved with the
context (`matched`), resolved with a falsy value (`notMatched`), or was
rejected (`failed`). -/
inductive Outcome where
  | matched
  | notMatched
  | failed (e : String)
deriving DecidableEq

/-- A stored header value on the response: Node's ServerResponse accepts a
string or an array; after `addHeader` the stored array can itself contain
a previously stored array, so the value universe is recursive. -/
inductive HVal where
  | str (s : String)
  | arr (l : List HVal)

/-- The `string | string[]` argument type of `setHeader`/`addHeader`. -/
inductive HInput where
  | str (s : String)
  | arr (l : List String)
deriving DecidableEq

/-- Request view: method, raw url, protocol version, incoming headers
(Node lower-cases incoming header names), and the outcome of the external
raw-body read (`raw-body` is fallible, so the field is an `Except`). -/
structure HttpRequest where
  method : String
  url : String
  httpVersion : String
  reqHeaders : List (String × String)
  rawBody : Except String String

/-- Response sink: status line, header collection (keys stored
lower-cased, as Node's ServerResponse does), the concatenation of all
chunks written so far, and whether `end` has been called. -/
structure HttpResponse where
  statusCode : Nat
  statusMessage : Option String
  resHeaders : List (String × HVal)
  bodyText : String
  ended : Bool

/-- The context threaded through every pipe (src/src/http.ts line 14). -/
structure HttpContext where
  req : HttpRequest
  res : HttpResponse

/-- An HttpPipe maps a context to the (possibly mutated) context and an
outcome (src/src/http.ts line 19, with mutation made explicit). -/
abbrev HttpPipe := HttpContext → HttpContext × Outcome

/-- `{code, reason?}` (src/src/http.ts lines 22 to 25). -/
structure HttpStatus where
  code : Nat
  reason : Option String
deriving DecidableEq

/-- Modelled from the spec: funkster-core's `always`, the pipe that
immediately yields Matched without side effects. -/
def always : HttpPipe := fun ctx => (ctx, Outcome.matched)

/-- Modelled from the spec: funkster-core's `never`, the pipe that
immediately yields NotMatched. -/
def never : HttpPipe := fun ctx => (ctx, Outcome.notMatched)

/-- Modelled from the spec: funkster-core's `compose`: run A; on Matched
run B on the resulting context; on NotMatched or failure stop without
invoking B. -/
def compose (a b : HttpPipe) : HttpPipe := fun ctx =>
  match a ctx with
  | (ctx1, Outcome.matched) => b ctx1
  | (ctx1, Outcome.notMatched) => (ctx1, Outcome.notMatched)
  | (ctx1, Outcome.failed e) => (ctx1, Outcome.failed e)

/-- Modelled from the spec: funkster-core's `choose`: try the pipes in
order, return the first result that is not NotMatched; NotMatched when
the list is exhausted. -/
def choose : List HttpPipe → HttpPipe
  | [] => never
  | p :: ps => fun ctx =>
    match p ctx with
    | (ctx1, Outcome.notMatched) => choose ps ctx1
    | (ctx1, Outcome.matched) => (ctx1, Outcome.matched)
    | (ctx1, Outcome.failed e) => (ctx1, Outcome.failed e)

/-! ### Character-level string utilities

These replace the JavaScript string builtins so that everything evaluates
by kernel reduction. -/

/-- Characters of `s` up to (excluding) the first occurrence of `c`. -/
def takeUntilChar (c : Char) : List Char → List Char
  | [] => []
  | x :: xs => if x = c then [] else x :: takeUntilChar c xs

/-- Characters of `s` strictly after the first occurrence of `c`
(empty when `c` does not occur). -/
def dropThroughChar (c : Char) : List Char → List Char
  | [] => []
  | x :: xs => if x = c then xs else dropThroughChar c xs

/-- Split a character list at every occurrence of `c` (like the
JavaScript `split` on a one-character separator). -/
def splitChars (c : Char) : List Char → List (List Char)
  | [] => [[]]
  | x :: xs =>
    match splitChars c xs with
    | [] => if x = c then [[], []] else [[x]]
    | y :: ys => if x = c then [] :: y :: ys else (x :: y) :: ys

/-- Lower-case a string (ASCII, as Node lower-cases header names). -/
def toLowerStr (s : String) : String := String.mk (s.data.map Char.toLower)

/-- Value of a hexadecimal digit. -/
def hexVal (c : Char) : Option Nat :=
  if '0' ≤ c ∧ c ≤ '9' then some (c.toNat - '0'.toNat)
  else if 'a' ≤ c ∧ c ≤ 'f' then some (c.toNat - 'a'.toNat + 10)
  else if 'A' ≤ c ∧ c ≤ 'F' then some (c.toNat - 'A'.toNat + 10)
  else none

/-- Modelled from the spec: percent-decoding of one captured group or
query component (the JavaScript `decodeURIComponent` builtin; §4.2 says
captured groups are percent-decoded). A malformed escape is left in
place (the claims never exercise malformed escapes). -/
def decodeChars : List Char → List Char
  | [] => []
  | [c] => [c]
  | [c, d] => [c, d]
  | c :: a :: b :: rest =>
    if c = '%' then
      match hexVal a, hexVal b with
      | some x, some y => Char.ofNat (16 * x + y) :: decodeChars rest
      | _, _ => c :: decodeChars (a :: b :: rest)
    else c :: decodeChars (a :: b :: rest)

/-- String-level percent-decoding. -/
def decodeURIComponent (s : String) : String := String.mk (decodeChars s.data)

/-! ### The external parseurl collaborator -/

/-- The fields of the parsed url object that this library reads. -/
structure Url where
  pathname : String
  query : String

/-- Modelled from the spec: the external `parseurl` collaborator splits
the raw request url into its path component (everything before the first
question mark) and its query component (everything after it). The path
component is NOT percent-decoded: §4.2 decodes only the captured groups,
after matching. -/
def pathnameOf (url : String) : String := String.mk (takeUntilChar '?' url.data)

/-- The query component of a raw request url (empty when there is no
question mark, matching `querystring.parse(null)` yielding an empty map). -/
def queryOf (url : String) : String := String.mk (dropThroughChar '?' url.data)

/-- Modelled from the spec: `parseurl(req)` parses `req.url` into its
path and query components. -/
def parseurl (req : HttpRequest) : Url := ⟨pathnameOf req.url, queryOf req.url⟩

/-! ### The external pathToRegexp collaborator -/

/-- Split a string on the slash separator. -/
def splitOnSlash (s : String) : List String :=
  (splitChars '/' s.data).map (fun l => String.mk l)

/-- Modelled from the spec (§6): the ordered placeholder-name list of a
path pattern — the segments beginning with the colon sigil, in order,
with the sigil stripped (pathToRegexp's `keys.map(k => k.name)`). -/
def patternKeys (pat : String) : List String :=
  ((splitOnSlash pat).filter (fun s => s.data.headD ' ' = ':')).map
    (fun s => String.mk s.data.tail)

/-- Match a list of pattern segments against a list of path segments:
a literal segment must be equal, a placeholder segment captures any
non-empty path segment; the whole lists must align. Returns the captured
segments in order. -/
def matchSegs : List String → List String → Option (List String)
  | [], [] => some []
  | p :: ps, s :: ss =>
    if p.data.headD ' ' = ':' then
      if s = "" then none
      else (matchSegs ps ss).map (fun r => s :: r)
    else if p = s then matchSegs ps ss else none
  | _, _ => none

/-- Modelled from the spec (§4.2, §6): applying the expression compiled
from a path pattern to a request path; `none` when the expression does
not match the whole path, otherwise the list of captured groups (the
full-match entry at index 0 of a JavaScript exec result, removed by the
source's `slice(1)`, is not represented). -/
def matchPattern (pat path : String) : Option (List String) :=
  matchSegs (splitOnSlash pat) (splitOnSlash path)

/-! ### Request-side combinators (src/src/http.ts) -/

/-- `request` (line 27): hand the request to the continuation and apply
the resulting pipe to the same context. -/
def request (handler : HttpRequest → HttpPipe) : HttpPipe :=
  fun ctx => handler ctx.req ctx

/-- `parseUrl` (line 31): hand the parsed url to the continuation. -/
def parseUrl (handler : Url → HttpPipe) : HttpPipe :=
  request (fun req => handler (parseurl req))

/-- In-place update of a string-keyed association list, as JavaScript
`accu[key] = v` on an object: an existing key keeps its position and gets
the new value, a fresh key is appended. -/
def setKey {α : Type} : List (String × α) → String → α → List (String × α)
  | [], k, v => [(k, v)]
  | (k1, v1) :: rest, k, v =>
    if k1 = k then (k1, v) :: rest else (k1, v1) :: setKey rest k v

/-- The `keyNames.reduce((accu, key, i) => { accu[key] = vals[i]; ... }, {})`
of `parsePath` (lines 54 to 57): keys and values are consumed in lockstep. -/
def buildParams : List String → List String → List (String × String) →
    List (String × String)
  | [], _, accu => accu
  | k :: ks, vs, accu => buildParams ks vs.tail (setKey accu k (vs.headD ""))

/-- The request-time part of `parsePath` (lines 41 to 63), abstracted over
the precompiled key list and matching expression (which the source
computes once, at registration): on no match yield never; otherwise
percent-decode the captured groups and, only when their number equals the
number of keys, hand the zipped Params mapping to the continuation, else
yield never. -/
def parsePathCore (keyNames : List String) (exec : String → Option (List String))
    (paramHandler : List (String × String) → HttpPipe) : HttpPipe :=
  parseUrl (fun url =>
    match exec url.pathname with
    | none => never
    | some ms =>
      let sanitizedMatches := ms.map decodeURIComponent
      if sanitizedMatches.length = keyNames.length then
        paramHandler (buildParams keyNames sanitizedMatches [])
      else never)

/-- `parsePath` (lines 35 to 64): compile the pattern once, then match on
each request. -/
def parsePath (path : String)
    (paramHandler : List (String × String) → HttpPipe) : HttpPipe :=
  parsePathCore (patternKeys path) (matchPattern path) paramHandler

/-- A query value: scalar for a single occurrence of a key, multi-valued
for repeated keys. -/
inductive QVal where
  | one (s : String)
  | many (l : List String)
deriving DecidableEq

/-- Modelled from the spec (§6 query decoding): accumulate one `k=v`
occurrence into the query mapping; a repeated key grows a multi-valued
entry in order. -/
def addQ : List (String × QVal) → String → String → List (String × QVal)
  | [], k, v => [(k, QVal.one v)]
  | (k1, w) :: rest, k, v =>
    if k1 = k then
      (k1, match w with
           | QVal.one x => QVal.many [x, v]
           | QVal.many l => QVal.many (l ++ [v])) :: rest
    else (k1, w) :: addQ rest k v

/-- Plus-as-space then percent-decoding, as querystring does to each key
and value. -/
def qsDecode (s : String) : String :=
  decodeURIComponent (String.mk (s.data.map (fun c => if c = '+' then ' ' else c)))

/-- Modelled from the spec: `querystring.parse` — split the query on
ampersands, split each part at the first equals sign, decode both halves;
an empty query yields the empty mapping. -/
def parseQS (s : String) : List (String × QVal) :=
  if s = "" then []
  else
    ((splitChars '&' s.data).map (fun part =>
        (String.mk (takeUntilChar '=' part), String.mk (dropThroughChar '=' part)))).foldl
      (fun m kv => addQ m (qsDecode kv.1) (qsDecode kv.2)) []

/-- `parseQuery` (lines 66 to 71): parse the query component and hand the
mapping to the continuation unconditionally. -/
def parseQuery (handler : List (String × QVal) → HttpPipe) : HttpPipe :=
  parseUrl (fun url => handler (parseQS url.query))

/-- `ifPath` (lines 73 to 75): equality of the parsed (still
percent-encoded) pathname with the literal, else never. -/
def ifPath (urlPath : String) (handler : Unit → HttpPipe) : HttpPipe :=
  parseUrl (fun url => if url.pathname = urlPath then handler () else never)

/-- `method` (lines 77 to 79). -/
def method (handler : String → HttpPipe) : HttpPipe :=
  request (fun req => handler req.method)

/-- `ifMethod` (lines 81 to 83). -/
def ifMethod (httpMethod : String) (part : HttpPipe) : HttpPipe :=
  method (fun verb => if verb = httpMethod then part else never)

/-- `httpVersion` (lines 85 to 87). -/
def httpVersion (handler : String → HttpPipe) : HttpPipe :=
  request (fun req => handler req.httpVersion)

/-- `ifHttpVersion` (lines 89 to 91). -/
def ifHttpVersion (version : String) (part : HttpPipe) : HttpPipe :=
  httpVersion (fun v => if v = version then part else never)

/-- `body` (lines 93 to 100): await the external raw-body read; a failed
read rejects the asynchronous outcome (modelled as `failed`), a
successful read hands the buffer to the continuation and forwards its
result. -/
def body (handler : String → HttpPipe) : HttpPipe := fun ctx =>
  match ctx.req.rawBody with
  | Except.error e => (ctx, Outcome.failed e)
  | Except.ok buffer => handler buffer ctx

/-- `headers` (lines 102 to 104). -/
def headers (handler : List (String × String) → HttpPipe) : HttpPipe :=
  request (fun req => handler req.reqHeaders)

/-- `header` (lines 106 to 111): look up the lower-cased name in the
incoming header collection; absent headers hand `none` (undefined) to the
continuation. -/
def header (name : String) (handler : Option String → HttpPipe) : HttpPipe :=
  headers (fun hs =>
    handler ((hs.find? (fun p => p.1 == toLowerStr name)).map (fun p => p.2)))

/-! ### Response-side combinators (src/src/http.ts) -/

/-- `response` (lines 124 to 126). -/
def response (handler : HttpResponse → HttpPipe) : HttpPipe :=
  fun ctx => handler ctx.res ctx

/-- `statusCode` (lines 128 to 130). -/
def statusCode (handler : Nat → HttpPipe) : HttpPipe :=
  response (fun res => handler res.statusCode)

/-- `statusMessage` (lines 132 to 134). -/
def statusMessage (handler : Option String → HttpPipe) : HttpPipe :=
  response (fun res => handler res.statusMessage)

/-- `status` (lines 136 to 138). -/
def status (handler : HttpStatus → HttpPipe) : HttpPipe :=
  response (fun res => handler ⟨res.statusCode, res.statusMessage⟩)

/-- Modelled from the spec: Node's `res.setHeader` stores the value under
the lower-cased name, overwriting any previous value. -/
def nodeSetHeader (res : HttpResponse) (key : String) (v : HVal) : HttpResponse :=
  { res with resHeaders := setKey res.resHeaders (toLowerStr key) v }

/-- Modelled from the spec: Node's `res.getHeader`, a case-insensitive
lookup of the stored value. -/
def nodeGetHeader (res : HttpResponse) (key : String) : Option HVal :=
  (res.resHeaders.find? (fun p => p.1 == toLowerStr key)).map (fun p => p.2)

/-- A `string | string[]` argument as a stored header value. -/
def hvalOfInput : HInput → HVal
  | HInput.str s => HVal.str s
  | HInput.arr l => HVal.arr (l.map HVal.str)

/-- The elements contributed by a `string | string[]` argument when it is
concatenated onto an existing value. -/
def hinputList : HInput → List HVal
  | HInput.str s => [HVal.str s]
  | HInput.arr l => l.map HVal.str

/-- JavaScript truthiness of a header-lookup result: `undefined` and the
empty string are falsy; every array (even empty) is truthy. -/
def jsTruthy : Option HVal → Bool
  | none => false
  | some (HVal.str s) => !(s == "")
  | some (HVal.arr _) => true

/-- `setHeader` (lines 140 to 146): unconditionally overwrite, always
Matched. The source mutates `ctx.res` through the `response` wrapper;
the mutation is rendered as a state update. -/
def setHeader (key : String) (value : HInput) : HttpPipe := fun ctx =>
  ({ ctx with res := nodeSetHeader ctx.res key (hvalOfInput value) }, Outcome.matched)

/-- `addHeader` (lines 148 to 161): read the current value; when it is
truthy store `[current].concat(value)` (the current value as a single
array element, then the new value or values), otherwise behave exactly
like `setHeader`; always Matched. -/
def addHeader (key : String) (value : HInput) : HttpPipe := fun ctx =>
  let current := nodeGetHeader ctx.res key
  if jsTruthy current then
    let cur := current.getD (HVal.str "")
    let conc : HVal :=
      match value with
      | HInput.arr l => HVal.arr (cur :: l.map HVal.str)
      | HInput.str s => HVal.arr [cur, HVal.str s]
    ({ ctx with res := nodeSetHeader ctx.res key conc }, Outcome.matched)
  else
    ({ ctx with res := nodeSetHeader ctx.res key (hvalOfInput value) }, Outcome.matched)

/-- The `HttpStatus | number` first argument of `setStatus`. -/
inductive StatusArg where
  | code (n : Nat)
  | status (s : HttpStatus)

/-- JavaScript `a || b` on optional strings: the left value wins unless
it is undefined or the empty string. -/
def jsOrStr : Option String → Option String → Option String
  | some s, b => if s = "" then b else some s
  | none, b => b

/-- Modelled from the spec: Node's `res.writeHead(code, reason?)` writes
the status line — it stores the code, and stores the reason when one is
given (an undefined reason leaves the stored message alone, to be
defaulted by Node at send time). -/
def nodeWriteHead (res : HttpResponse) (code : Nat) (reason : Option String) :
    HttpResponse :=
  { res with
      statusCode := code,
      statusMessage := match reason with
                       | some r => some r
                       | none => res.statusMessage }

/-- `setStatus` (lines 163 to 173): a numeric argument writes the head
with the separately supplied reason; an HttpStatus argument writes its
code with `statusOrstatusCode.reason || reason`; always Matched. -/
def setStatus (arg : StatusArg) (reason : Option String) : HttpPipe := fun ctx =>
  match arg with
  | StatusArg.code n =>
    ({ ctx with res := nodeWriteHead ctx.res n reason }, Outcome.matched)
  | StatusArg.status s =>
    ({ ctx with res := nodeWriteHead ctx.res s.code (jsOrStr s.reason reason) },
      Outcome.matched)

/-- `writeBody` (lines 175 to 180): append the chunk to the response body
(the response body is observed as the concatenation of written chunks);
always Matched. The encoding argument only affects byte-level rendering
and is carried but unused in the string model. -/
def writeBody (chunk : String) (_encoding : Option String) : HttpPipe := fun ctx =>
  ({ ctx with res := { ctx.res with bodyText := ctx.res.bodyText ++ chunk } },
    Outcome.matched)

/-- JavaScript truthiness of the optional body argument of `respond`:
undefined and the empty string are falsy. -/
def strTruthy : Option String → Bool
  | none => false
  | some s => !(s == "")

/-- `respond` (lines 182 to 184):
`compose(setStatus(statusCode), body ? writeBody(body, encoding) : always)`. -/
def respond (sc : Nat) (optBody : Option String) (encoding : Option String) :
    HttpPipe :=
  compose (setStatus (StatusArg.code sc) none)
    (if strTruthy optBody then writeBody (optBody.getD "") encoding else always)

/-! ### Host adapters (src/src/index.ts) -/

/-- What the adapter does after the pipe completes: ends the response
itself, invokes the host fallback (`finalhandler` with no error — the
default 404 path), invokes the host error path (`finalhandler` with the
error, or `next(error)`), calls the bare `next()` continuation, or does
nothing at all. -/
inductive HostAction where
  | endResponse
  | fallback
  | errorPath (e : String)
  | nextContinue
  | noAction
deriving DecidableEq

/-- `asRequestListener` (index.ts lines 30 to 44): build the context, run
the pipe; a truthy (Matched) result makes the adapter call `res.end()`;
a falsy (NotMatched) result calls `done(null)` (finalhandler's default
404); a rejection calls `done(error)`. -/
def asRequestListener (part : HttpPipe) (req : HttpRequest) (res : HttpResponse) :
    HttpContext × HostAction :=
  match part (HttpContext.mk req res) with
  | (ctx1, Outcome.matched) =>
    ({ ctx1 with res := { ctx1.res with ended := true } }, HostAction.endResponse)
  | (ctx1, Outcome.notMatched) => (ctx1, HostAction.fallback)
  | (ctx1, Outcome.failed e) => (ctx1, HostAction.errorPath e)

/-- `asConnectMiddleware` (index.ts lines 57 to 68): build the context,
run the pipe; only a falsy (NotMatched) result calls `next()`; a Matched
result triggers no action at all (neither `next` nor `res.end`); a
rejection calls `next(error)`. -/
def asConnectMiddleware (part : HttpPipe) (req : HttpRequest) (res : HttpResponse) :
    HttpContext × HostAction :=
  match part (HttpContext.mk req res) with
  | (ctx1, Outcome.matched) => (ctx1, HostAction.noAction)
  | (ctx1, Outcome.notMatched) => (ctx1, HostAction.nextContinue)
  | (ctx1, Outcome.failed e) => (ctx1, HostAction.errorPath e)

/-! ### Concrete fixtures used by witnesses and counterexamples -/

/-- A GET request for the given raw url with an empty successful body. -/
def sampleReq (u : String) : HttpRequest :=
  { method := "GET", url := u, httpVersion := "1.1", reqHeaders := [],
    rawBody := Except.ok "" }

/-- A fresh response sink. -/
def sampleRes : HttpResponse :=
  { statusCode := 200, statusMessage := none, resHeaders := [], bodyText := "",
    ended := false }

/-- A fresh context for the given raw url. -/
def sampleCtx (u : String) : HttpContext := ⟨sampleReq u, sampleRes⟩

/-- A continuation that records the Params mapping it receives in the
failure message, so distinct mappings give observably distinct pipes. -/
def recordParams (ps : List (String × String)) : HttpPipe := fun ctx =>
  (ctx, Outcome.failed (String.intercalate "," (ps.map (fun p => p.1 ++ "=" ++ p.2))))

/-- A pipe that always rejects, for exercising the adapters' error path. -/
def failPipe (e : String) : HttpPipe := fun ctx => (ctx, Outcome.failed e)

/-- The context after `setHeader("X", "a")` on a fresh exchange. -/
def ctxA : HttpContext := (setHeader "X" (HInput.str "a") (sampleCtx "/")).1

/-- A context whose body read fails with "boom". -/
def failCtx : HttpContext :=
  ⟨{ sampleReq "/" with rawBody := Except.error "boom" }, sampleRes⟩

/-- A context whose body read succeeds with "ping". -/
def okCtx : HttpContext :=
  ⟨{ sampleReq "/" with rawBody := Except.ok "ping" }, sampleRes⟩

/-! ## Supporting lemmas -/

/-- JavaScript object assignment on a fresh key appends the binding. -/
theorem setKey_fresh {α : Type} (accu : List (String × α)) (k : String) (v : α)
    (h : ∀ p ∈ accu, p.1 ≠ k) : setKey accu k v = accu ++ [(k, v)] := by
  induction accu with
  | nil => rfl
  | cons p rest ih =>
    obtain ⟨k1, v1⟩ := p
    have hk1 : k1 ≠ k := h (k1, v1) (List.mem_cons_self _ _)
    simp only [setKey, if_neg hk1, List.cons_append, List.cons.injEq, true_and]
    exact ih (fun q hq => h q (List.mem_cons_of_mem _ hq))

/-- The source's index-zipping reduce builds exactly the positional zip of
keys and values when the keys are distinct and the lengths agree. -/
theorem buildParams_zip (ks : List String) (vs : List String)
    (accu : List (String × String)) (hnd : ks.Nodup)
    (hdisj : ∀ p ∈ accu, p.1 ∉ ks) (hlen : vs.length = ks.length) :
    buildParams ks vs accu = accu ++ ks.zip vs := by
  induction ks generalizing vs accu with
  | nil => simp [buildParams]
  | cons k ks ih =>
    cases vs with
    | nil => simp at hlen
    | cons v vs =>
      have hstep : buildParams (k :: ks) (v :: vs) accu
          = buildParams ks vs (setKey accu k v) := rfl
      have hk : ∀ p ∈ accu, p.1 ≠ k := by
        intro p hp
        have := hdisj p hp
        simp only [List.mem_cons, not_or] at this
        exact this.1
      rw [hstep, setKey_fresh accu k v hk]
      rw [ih vs (accu ++ [(k, v)]) (List.Nodup.of_cons hnd) ?hdisj ?hlen]
      · simp
      case hdisj =>
        intro p hp
        rcases List.mem_append.1 hp with hmem | hmem
        · intro hin
          exact (hdisj p hmem) (List.mem_cons_of_mem _ hin)
        · simp only [List.mem_singleton] at hmem
          subst hmem
          exact (List.nodup_cons.1 hnd).1
      case hlen =>
        simpa using hlen

/-! ## Claim theorems -/

/-- Claim C2: for every pair of pipes A, B and every context c, if A(c)
yields NotMatched then compose(A, B)(c) yields NotMatched with A's final
context unchanged by B (so none of B's side effects occur), and the
composite's behaviour is independent of B (B is never invoked). -/
theorem compose_shortcircuit (a b : HttpPipe) (ctx : HttpContext)
    (h : (a ctx).2 = Outcome.notMatched) :
    (compose a b ctx).2 = Outcome.notMatched
  ∧ compose a b ctx = a ctx
  ∧ ∀ b2 : HttpPipe, compose a b ctx = compose a b2 ctx := by
  rcases hac : a ctx with ⟨ctx1, o⟩
  rw [hac] at h
  simp only at h
  subst h
  refine ⟨?_, ?_, fun b2 => ?_⟩ <;> simp [compose, hac]

/-- Witness for C2 at a concrete input: the declining pipe is `never`,
the second pipe carries a response mutation that must not happen. -/
theorem compose_shortcircuit_witness :
    compose never (setHeader "X" (HInput.str "boom")) (sampleCtx "/")
      = never (sampleCtx "/") :=
  (compose_shortcircuit never (setHeader "X" (HInput.str "boom"))
    (sampleCtx "/") rfl).2.1

/-- Claim C3: always/never are identities for compose/choose at every
pipe and context, and compose is associative. -/
theorem compose_choose_identities :
    (∀ (p : HttpPipe) (ctx : HttpContext), compose always p ctx = p ctx)
  ∧ (∀ (p : HttpPipe) (ctx : HttpContext), compose p always ctx = p ctx)
  ∧ (∀ (p : HttpPipe) (ctx : HttpContext), choose [never, p] ctx = p ctx)
  ∧ (∀ (p : HttpPipe) (ctx : HttpContext), choose [p, never] ctx = p ctx)
  ∧ (∀ (a b c : HttpPipe) (ctx : HttpContext),
      compose (compose a b) c ctx = compose a (compose b c) ctx) := by
  refine ⟨fun p ctx => rfl, fun p ctx => ?_, fun p ctx => ?_, fun p ctx => ?_,
    fun a b c ctx => ?_⟩
  · rcases hp : p ctx with ⟨ctx1, o⟩
    cases o <;> simp [compose, always, hp]
  · rcases hp : p ctx with ⟨ctx1, o⟩
    cases o <;> simp [choose, never, hp]
  · rcases hp : p ctx with ⟨ctx1, o⟩
    cases o <;> simp [choose, never, hp]
  · rcases hac : a ctx with ⟨ctx1, o⟩
    cases o with
    | matched =>
      rcases hb : b ctx1 with ⟨ctx2, o2⟩
      cases o2 <;> simp [compose, hac, hb]
    | notMatched => simp [compose, hac]
    | failed e => simp [compose, hac]

/-- Claim C7: a failed external body read propagates as a failed
asynchronous outcome, never as NotMatched; a successful read hands the
buffer to the continuation and forwards its result. -/
theorem body_spec :
    (∀ (h : String → HttpPipe) (ctx : HttpContext) (e : String),
        ctx.req.rawBody = Except.error e → body h ctx = (ctx, Outcome.failed e))
  ∧ (∀ (h : String → HttpPipe) (ctx : HttpContext) (e : String),
        ctx.req.rawBody = Except.error e → (body h ctx).2 ≠ Outcome.notMatched)
  ∧ (∀ (h : String → HttpPipe) (ctx : HttpContext) (buffer : String),
        ctx.req.rawBody = Except.ok buffer → body h ctx = h buffer ctx) := by
  refine ⟨?_, ?_, ?_⟩ <;> intro h ctx x hx <;> simp [body, hx]

/-- Witness for C7 at concrete inputs: a failing read yields the failure,
a successful read runs the continuation on the buffer. -/
theorem body_spec_witness :
    body (fun buffer => writeBody buffer none) failCtx
      = (failCtx, Outcome.failed "boom")
  ∧ body (fun buffer => writeBody buffer none) okCtx
      = writeBody "ping" none okCtx :=
  ⟨body_spec.1 (fun buffer => writeBody buffer none) failCtx "boom" rfl,
   body_spec.2.2 (fun buffer => writeBody buffer none) okCtx "ping" rfl⟩

/-- Claim C10: every pure projection combinator unconditionally invokes
its continuation on the facet it extracts and returns exactly the
continuation's pipe applied to the same context — no NotMatched, no
failure, no mutation before the handoff; parseQuery has no non-match
case, and header passes none (undefined) for an absent header. -/
theorem projection_combinators :
    (∀ (h : HttpRequest → HttpPipe) (ctx : HttpContext),
        request h ctx = h ctx.req ctx)
  ∧ (∀ (h : Url → HttpPipe) (ctx : HttpContext),
        parseUrl h ctx = h (parseurl ctx.req) ctx)
  ∧ (∀ (h : String → HttpPipe) (ctx : HttpContext),
        method h ctx = h ctx.req.method ctx)
  ∧ (∀ (h : String → HttpPipe) (ctx : HttpContext),
        httpVersion h ctx = h ctx.req.httpVersion ctx)
  ∧ (∀ (h : List (String × String) → HttpPipe) (ctx : HttpContext),
        headers h ctx = h ctx.req.reqHeaders ctx)
  ∧ (∀ (name : String) (h : Option String → HttpPipe) (ctx : HttpContext),
        header name h ctx
          = h ((ctx.req.reqHeaders.find? (fun p => p.1 == toLowerStr name)).map
                (fun p => p.2)) ctx)
  ∧ (∀ (h : List (String × QVal) → HttpPipe) (ctx : HttpContext),
        parseQuery h ctx = h (parseQS (queryOf ctx.req.url)) ctx)
  ∧ (∀ (h : HttpResponse → HttpPipe) (ctx : HttpContext),
        response h ctx = h ctx.res ctx)
  ∧ (∀ (h : Nat → HttpPipe) (ctx : HttpContext),
        statusCode h ctx = h ctx.res.statusCode ctx)
  ∧ (∀ (h : Option String → HttpPipe) (ctx : HttpContext),
        statusMessage h ctx = h ctx.res.statusMessage ctx)
  ∧ (∀ (h : HttpStatus → HttpPipe) (ctx : HttpContext),
        status h ctx = h ⟨ctx.res.statusCode, ctx.res.statusMessage⟩ ctx) := by
  exact ⟨fun h ctx => rfl, fun h ctx => rfl, fun h ctx => rfl, fun h ctx => rfl,
    fun h ctx => rfl, fun name h ctx => rfl, fun h ctx => rfl, fun h ctx => rfl,
    fun h ctx => rfl, fun h ctx => rfl, fun h ctx => rfl⟩

/-- Claim C1: parsePath applies the compiled expression to the request
path; no whole-path match yields NotMatched; an arity mismatch between
the captured groups and the declared placeholder names yields NotMatched;
on a match with agreeing arity the percent-decoded groups are zipped
positionally with the placeholder names into the Params mapping handed to
the handler (an empty mapping for a pattern with zero placeholders); in
particular the three round-trip examples of the specification hold. -/
theorem parsePath_spec :
    (∀ (pat : String) (h : List (String × String) → HttpPipe) (ctx : HttpContext),
        matchPattern pat (pathnameOf ctx.req.url) = none →
        parsePath pat h ctx = (ctx, Outcome.notMatched))
  ∧ (∀ (keyNames : List String) (exec : String → Option (List String))
        (h : List (String × String) → HttpPipe) (ctx : HttpContext)
        (gs : List String),
        exec (pathnameOf ctx.req.url) = some gs →
        gs.length ≠ keyNames.length →
        parsePathCore keyNames exec h ctx = (ctx, Outcome.notMatched))
  ∧ (∀ (pat : String) (h : List (String × String) → HttpPipe) (ctx : HttpContext)
        (gs : List String),
        matchPattern pat (pathnameOf ctx.req.url) = some gs →
        gs.length = (patternKeys pat).length →
        (patternKeys pat).Nodup →
        parsePath pat h ctx
          = h ((patternKeys pat).zip (gs.map decodeURIComponent)) ctx)
  ∧ (∀ (h : List (String × String) → HttpPipe) (ctx : HttpContext),
        ctx.req.url = "/route/first/some/beer" →
        parsePath "/route/:foo/some/:bar" h ctx
          = h [("foo", "first"), ("bar", "beer")] ctx)
  ∧ (∀ (h : List (String × String) → HttpPipe) (ctx : HttpContext),
        ctx.req.url = "/route/some" →
        parsePath "/route/some" h ctx = h [] ctx)
  ∧ (∀ (h : List (String × String) → HttpPipe) (ctx : HttpContext),
        ctx.req.url = "/route/some" →
        parsePath "/route/:foo/some" h ctx = (ctx, Outcome.notMatched)) := by
  refine ⟨?_, ?_, ?_, ?_, ?_, ?_⟩
  · intro pat h ctx hm
    simp [parsePath, parsePathCore, parseUrl, request, parseurl, hm, never]
  · intro keyNames exec h ctx gs hm hlen
    simp [parsePathCore, parseUrl, request, parseurl, hm, hlen, never]
  · intro pat h ctx gs hm hlen hnd
    have hlen2 : (gs.map decodeURIComponent).length = (patternKeys pat).length := by
      simpa using hlen
    have hbp : buildParams (patternKeys pat) (gs.map decodeURIComponent) []
        = (patternKeys pat).zip (gs.map decodeURIComponent) := by
      have := buildParams_zip (patternKeys pat) (gs.map decodeURIComponent) []
        hnd (by intro p hp; cases hp) hlen2
      simpa using this
    simp [parsePath, parsePathCore, parseUrl, request, parseurl, hm, hlen2, hbp]
  · intro h ctx hurl
    simp only [parsePath, parsePathCore, parseUrl, request, parseurl]
    rw [hurl]
    rfl
  · intro h ctx hurl
    simp only [parsePath, parsePathCore, parseUrl, request, parseurl]
    rw [hurl]
    rfl
  · intro h ctx hurl
    simp only [parsePath, parsePathCore, parseUrl, request, parseurl]
    rw [hurl]
    rfl

/-- Witness for C1 at concrete inputs: the three round-trip examples and
an arity mismatch produced by an expression capturing one group for a
pattern with no placeholder names. -/
theorem parsePath_spec_witness :
    parsePath "/route/:foo/some/:bar" recordParams (sampleCtx "/route/first/some/beer")
      = recordParams [("foo", "first"), ("bar", "beer")]
          (sampleCtx "/route/first/some/beer")
  ∧ parsePath "/route/some" recordParams (sampleCtx "/route/some")
      = recordParams [] (sampleCtx "/route/some")
  ∧ parsePath "/route/:foo/some" recordParams (sampleCtx "/route/some")
      = (sampleCtx "/route/some", Outcome.notMatched)
  ∧ parsePathCore [] (fun _ => some ["x"]) recordParams (sampleCtx "/a")
      = (sampleCtx "/a", Outcome.notMatched) :=
  ⟨parsePath_spec.2.2.2.1 recordParams (sampleCtx "/route/first/some/beer") rfl,
   parsePath_spec.2.2.2.2.1 recordParams (sampleCtx "/route/some") rfl,
   parsePath_spec.2.2.2.2.2 recordParams (sampleCtx "/route/some") rfl,
   parsePath_spec.2.1 [] (fun _ => some ["x"]) recordParams (sampleCtx "/a") ["x"]
     rfl (by decide)⟩

/-- Counterexample for C4 as stated: after `setHeader("X", "")` the header
IS set, yet `addHeader("X", "b")` overwrites instead of appending (the
source tests JavaScript truthiness, and the empty string is falsy); and
when the existing value is an array, the concatenation keeps it as a
single nested element rather than splicing its members, so the resulting
order is not "prior values followed by new values". -/
theorem addHeader_counterexample :
    (compose (setHeader "X" (HInput.str "")) (addHeader "X" (HInput.str "b"))
        (sampleCtx "/")).1.res.resHeaders = [("x", HVal.str "b")]
  ∧ (compose (setHeader "X" (HInput.str "")) (addHeader "X" (HInput.str "b"))
        (sampleCtx "/")).1.res.resHeaders
      ≠ [("x", HVal.arr [HVal.str "", HVal.str "b"])]
  ∧ (compose (setHeader "X" (HInput.arr ["a", "b"])) (addHeader "X" (HInput.str "c"))
        (sampleCtx "/")).1.res.resHeaders
      = [("x", HVal.arr [HVal.arr [HVal.str "a", HVal.str "b"], HVal.str "c"])]
  ∧ (compose (setHeader "X" (HInput.arr ["a", "b"])) (addHeader "X" (HInput.str "c"))
        (sampleCtx "/")).1.res.resHeaders
      ≠ [("x", HVal.arr [HVal.str "a", HVal.str "b", HVal.str "c"])] := by
  refine ⟨rfl, ?_, rfl, ?_⟩
  · intro hcon
    rw [show (compose (setHeader "X" (HInput.str "")) (addHeader "X" (HInput.str "b"))
          (sampleCtx "/")).1.res.resHeaders = [("x", HVal.str "b")] from rfl] at hcon
    simp at hcon
  · intro hcon
    rw [show (compose (setHeader "X" (HInput.arr ["a", "b"]))
          (addHeader "X" (HInput.str "c")) (sampleCtx "/")).1.res.resHeaders
          = [("x", HVal.arr [HVal.arr [HVal.str "a", HVal.str "b"], HVal.str "c"])]
          from rfl] at hcon
    simp at hcon

/-- Claim C4 as amended: when the stored value for the header is truthy
(a non-empty string, or any array), addHeader stores an array whose first
element is the prior stored value taken as a single unit followed by the
new value or values (so a prior single string "a" with new "b" gives
["a", "b"] in that order); when the header is unset or holds the empty
string, addHeader behaves exactly like setHeader; it always yields
Matched. -/
theorem addHeader_amended :
    (∀ (key : String) (value : HInput) (ctx : HttpContext) (cur : HVal),
        nodeGetHeader ctx.res key = some cur → jsTruthy (some cur) = true →
        addHeader key value ctx
          = ({ ctx with
                res := nodeSetHeader ctx.res key (HVal.arr (cur :: hinputList value)) },
              Outcome.matched))
  ∧ (∀ (key : String) (value : HInput) (ctx : HttpContext),
        jsTruthy (nodeGetHeader ctx.res key) = false →
        addHeader key value ctx = setHeader key value ctx)
  ∧ (∀ (key : String) (value : HInput) (ctx : HttpContext),
        (addHeader key value ctx).2 = Outcome.matched)
  ∧ (compose (setHeader "X" (HInput.str "a")) (addHeader "X" (HInput.str "b"))
        (sampleCtx "/")).1.res.resHeaders
      = [("x", HVal.arr [HVal.str "a", HVal.str "b"])] := by
  refine ⟨?_, ?_, ?_, rfl⟩
  · intro key value ctx cur hcur htr
    cases value <;> simp [addHeader, hcur, htr, hinputList]
  · intro key value ctx hfalse
    simp [addHeader, hfalse, setHeader]
  · intro key value ctx
    by_cases htr : jsTruthy (nodeGetHeader ctx.res key) = true
    · simp [addHeader, htr]
    · simp [addHeader, htr]

/-- Witness for C4's amended claim at concrete inputs: appending onto a
truthy prior value, and setHeader behaviour on an unset header. -/
theorem addHeader_amended_witness :
    addHeader "X" (HInput.str "b") ctxA
      = ({ ctxA with
            res := nodeSetHeader ctxA.res "X" (HVal.arr [HVal.str "a", HVal.str "b"]) },
          Outcome.matched)
  ∧ addHeader "Y" (HInput.str "c") ctxA = setHeader "Y" (HInput.str "c") ctxA := by
  constructor
  · have h := addHeader_amended.1 "X" (HInput.str "b") ctxA (HVal.str "a") rfl rfl
    simpa [hinputList] using h
  · exact addHeader_amended.2.1 "Y" (HInput.str "c") ctxA rfl

/-- Counterexample for C5 as stated: an HttpStatus carrying the empty
string as its own reason loses to the separately supplied reason, because
the source uses JavaScript `||` and the empty string is falsy. -/
theorem setStatus_counterexample :
    ((setStatus (StatusArg.status (HttpStatus.mk 418 (some ""))) (some "Custom"))
        (sampleCtx "/")).1.res.statusMessage = some "Custom"
  ∧ ((setStatus (StatusArg.status (HttpStatus.mk 418 (some ""))) (some "Custom"))
        (sampleCtx "/")).1.res.statusMessage ≠ some "" := by
  refine ⟨rfl, ?_⟩
  intro hcon
  rw [show ((setStatus (StatusArg.status (HttpStatus.mk 418 (some ""))) (some "Custom"))
        (sampleCtx "/")).1.res.statusMessage = some "Custom" from rfl] at hcon
  simp at hcon

/-- Claim C5 as amended: setStatus writes the status line with the given
code and always yields Matched; a numeric first argument uses the
separately supplied reason; an HttpStatus argument's own reason takes
precedence only when it is present and non-empty, and when it is absent
or empty the separately supplied reason is used instead. -/
theorem setStatus_amended :
    (∀ (n : Nat) (reason : Option String) (ctx : HttpContext),
        setStatus (StatusArg.code n) reason ctx
          = ({ ctx with res := nodeWriteHead ctx.res n reason }, Outcome.matched))
  ∧ (∀ (s : HttpStatus) (reason : Option String) (ctx : HttpContext) (r : String),
        s.reason = some r → r ≠ "" →
        setStatus (StatusArg.status s) reason ctx
          = ({ ctx with res := nodeWriteHead ctx.res s.code (some r) },
              Outcome.matched))
  ∧ (∀ (s : HttpStatus) (reason : Option String) (ctx : HttpContext),
        s.reason = none ∨ s.reason = some "" →
        setStatus (StatusArg.status s) reason ctx
          = ({ ctx with res := nodeWriteHead ctx.res s.code reason },
              Outcome.matched))
  ∧ (∀ (arg : StatusArg) (reason : Option String) (ctx : HttpContext),
        (setStatus arg reason ctx).2 = Outcome.matched) := by
  refine ⟨fun n reason ctx => rfl, ?_, ?_, ?_⟩
  · intro s reason ctx r hr hne
    simp [setStatus, jsOrStr, hr, hne]
  · intro s reason ctx hcase
    rcases hcase with hc | hc <;> simp [setStatus, jsOrStr, hc]
  · intro arg reason ctx
    cases arg <;> rfl

/-- Witness for C5's amended claim at concrete inputs: a non-empty own
reason wins, an absent own reason falls back to the supplied reason. -/
theorem setStatus_amended_witness :
    setStatus (StatusArg.status (HttpStatus.mk 404 (some "Gone Fishing")))
        (some "Ignored") (sampleCtx "/")
      = ({ sampleCtx "/" with
            res := nodeWriteHead (sampleCtx "/").res 404 (some "Gone Fishing") },
          Outcome.matched)
  ∧ setStatus (StatusArg.status (HttpStatus.mk 500 none)) (some "Oops") (sampleCtx "/")
      = ({ sampleCtx "/" with
            res := nodeWriteHead (sampleCtx "/").res 500 (some "Oops") },
          Outcome.matched) :=
  ⟨setStatus_amended.2.1 (HttpStatus.mk 404 (some "Gone Fishing")) (some "Ignored")
      (sampleCtx "/") "Gone Fishing" rfl (by decide),
   setStatus_amended.2.2.1 (HttpStatus.mk 500 none) (some "Oops") (sampleCtx "/")
      (Or.inl rfl)⟩

/-- Claim C6: respond(code, body, encoding) behaves exactly as
compose(setStatus(code), writeBody(body, encoding)) whenever a body is
supplied and as compose(setStatus(code), always) when none is; it always
yields Matched and appends the supplied body to the response. (The
source's truthiness test sends an empty supplied body through the always
branch, which coincides observably with writing the empty chunk.) -/
theorem respond_spec :
    (∀ (sc : Nat) (b : String) (enc : Option String) (ctx : HttpContext),
        respond sc (some b) enc ctx
          = compose (setStatus (StatusArg.code sc) none) (writeBody b enc) ctx)
  ∧ (∀ (sc : Nat) (enc : Option String) (ctx : HttpContext),
        respond sc none enc ctx
          = compose (setStatus (StatusArg.code sc) none) always ctx)
  ∧ (∀ (sc : Nat) (b : Option String) (enc : Option String) (ctx : HttpContext),
        (respond sc b enc ctx).2 = Outcome.matched)
  ∧ (∀ (sc : Nat) (b : String) (enc : Option String) (ctx : HttpContext),
        (respond sc (some b) enc ctx).1.res.bodyText = ctx.res.bodyText ++ b) := by
  refine ⟨?_, ?_, ?_, ?_⟩
  · intro sc b enc ctx
    by_cases hb : b = ""
    · subst hb
      simp [respond, strTruthy, compose, setStatus, writeBody, always,
        String.append_empty]
    · simp [respond, strTruthy, hb]
  · intro sc enc ctx
    rfl
  · intro sc b enc ctx
    by_cases htr : strTruthy b = true
    · simp [respond, htr, compose, setStatus, writeBody]
    · simp [respond, htr, compose, setStatus, always]
  · intro sc b enc ctx
    by_cases hb : b = ""
    · subst hb
      simp [respond, strTruthy, compose, setStatus, always, nodeWriteHead,
        String.append_empty]
    · simp [respond, strTruthy, hb, compose, setStatus, writeBody, nodeWriteHead]

/-- Counterexample for C8 as stated: on a Matched outcome the connect
middleware adapter does not finalize or close the response — it performs
no action at all (the source only calls next() on a falsy result and
never calls res.end()). -/
theorem adapter_counterexample :
    asConnectMiddleware always (sampleReq "/") sampleRes
      = (sampleCtx "/", HostAction.noAction)
  ∧ (asConnectMiddleware always (sampleReq "/") sampleRes).1.res.ended = false
  ∧ (asConnectMiddleware always (sampleReq "/") sampleRes).2
      ≠ HostAction.endResponse := by
  refine ⟨rfl, rfl, by decide⟩

/-- Claim C8 as amended: both adapters construct the Context and run the
pipe to completion; asRequestListener finalizes the response itself on
Matched, while asConnectMiddleware performs no action on Matched (the
pipe is left responsible for the response); both hand NotMatched to the
host's fallback (finalhandler's default 404, respectively the bare next()
continuation) and hand an asynchronous failure to the host's error path,
never to the not-matched path. -/
theorem adapter_amended :
    (∀ (p : HttpPipe) (req : HttpRequest) (res : HttpResponse),
        (p (HttpContext.mk req res)).2 = Outcome.matched →
        asRequestListener p req res
          = ({ (p (HttpContext.mk req res)).1 with
                res := { (p (HttpContext.mk req res)).1.res with ended := true } },
              HostAction.endResponse))
  ∧ (∀ (p : HttpPipe) (req : HttpRequest) (res : HttpResponse),
        (p (HttpContext.mk req res)).2 = Outcome.notMatched →
        asRequestListener p req res
          = ((p (HttpContext.mk req res)).1, HostAction.fallback))
  ∧ (∀ (p : HttpPipe) (req : HttpRequest) (res : HttpResponse) (e : String),
        (p (HttpContext.mk req res)).2 = Outcome.failed e →
        asRequestListener p req res
          = ((p (HttpContext.mk req res)).1, HostAction.errorPath e))
  ∧ (∀ (p : HttpPipe) (req : HttpRequest) (res : HttpResponse),
        (p (HttpContext.mk req res)).2 = Outcome.matched →
        asConnectMiddleware p req res
          = ((p (HttpContext.mk req res)).1, HostAction.noAction))
  ∧ (∀ (p : HttpPipe) (req : HttpRequest) (res : HttpResponse),
        (p (HttpContext.mk req res)).2 = Outcome.notMatched →
        asConnectMiddleware p req res
          = ((p (HttpContext.mk req res)).1, HostAction.nextContinue))
  ∧ (∀ (p : HttpPipe) (req : HttpRequest) (res : HttpResponse) (e : String),
        (p (HttpContext.mk req res)).2 = Outcome.failed e →
        asConnectMiddleware p req res
          = ((p (HttpContext.mk req res)).1, HostAction.errorPath e)) := by
  refine ⟨?_, ?_, ?_, ?_, ?_, ?_⟩ <;>
    first
    | (intro p req res h
       rcases hp : p (HttpContext.mk req res) with ⟨ctx1, o⟩
       rw [hp] at h
       simp only at h
       subst h
       simp [asRequestListener, asConnectMiddleware, hp])
    | (intro p req res e h
       rcases hp : p (HttpContext.mk req res) with ⟨ctx1, o⟩
       rw [hp] at h
       simp only at h
       subst h
       simp [asRequestListener, asConnectMiddleware, hp])

/-- Witness for C8's amended claim at concrete inputs: the three outcomes
through each adapter. -/
theorem adapter_amended_witness :
    asRequestListener always (sampleReq "/") sampleRes
      = ({ sampleCtx "/" with res := { (sampleCtx "/").res with ended := true } },
          HostAction.endResponse)
  ∧ asRequestListener never (sampleReq "/") sampleRes
      = (sampleCtx "/", HostAction.fallback)
  ∧ asRequestListener (failPipe "boom") (sampleReq "/") sampleRes
      = (sampleCtx "/", HostAction.errorPath "boom")
  ∧ asConnectMiddleware never (sampleReq "/") sampleRes
      = (sampleCtx "/", HostAction.nextContinue)
  ∧ asConnectMiddleware (failPipe "boom") (sampleReq "/") sampleRes
      = (sampleCtx "/", HostAction.errorPath "boom") :=
  ⟨adapter_amended.1 always (sampleReq "/") sampleRes rfl,
   adapter_amended.2.1 never (sampleReq "/") sampleRes rfl,
   adapter_amended.2.2.1 (failPipe "boom") (sampleReq "/") sampleRes "boom" rfl,
   adapter_amended.2.2.2.2.1 never (sampleReq "/") sampleRes rfl,
   adapter_amended.2.2.2.2.2 (failPipe "boom") (sampleReq "/") sampleRes "boom" rfl⟩

/-- Counterexample for C9 as stated: ifPath compares the raw, still
percent-encoded pathname — for the literal containing a space and a
request url carrying the percent-encoded space, the decoded path
component equals the literal, yet ifPath yields NotMatched. -/
theorem ifPath_counterexample :
    decodeURIComponent (pathnameOf "/a%20b") = "/a b"
  ∧ ifPath "/a b" (fun _ => always) (sampleCtx "/a%20b")
      = never (sampleCtx "/a%20b") := by
  exact ⟨by decide, rfl⟩

/-- Claim C9 as amended: ifPath compares the raw (undecoded) path
component of the request URL to the literal string, yielding the
handler's pipe on equality and NotMatched on mismatch. -/
theorem ifPath_amended :
    (∀ (urlPath : String) (h : Unit → HttpPipe) (ctx : HttpContext),
        pathnameOf ctx.req.url = urlPath → ifPath urlPath h ctx = h () ctx)
  ∧ (∀ (urlPath : String) (h : Unit → HttpPipe) (ctx : HttpContext),
        pathnameOf ctx.req.url ≠ urlPath →
        ifPath urlPath h ctx = (ctx, Outcome.notMatched)) := by
  constructor <;> intro urlPath h ctx hp <;>
    simp [ifPath, parseUrl, request, parseurl, hp, never]

/-- Witness for C9's amended claim at concrete inputs: the test suite's
matching and non-matching exact routes. -/
theorem ifPath_amended_witness :
    ifPath "/some/route" (fun _ => always) (sampleCtx "/some/route")
      = always (sampleCtx "/some/route")
  ∧ ifPath "/some/route" (fun _ => always) (sampleCtx "/some")
      = (sampleCtx "/some", Outcome.notMatched) :=
  ⟨ifPath_amended.1 "/some/route" (fun _ => always) (sampleCtx "/some/route")
      (by decide),
   ifPath_amended.2 "/some/route" (fun _ => always) (sampleCtx "/some")
      (by decide)⟩

end Funkster
